import Mathlib

/-!
Verification development for the request-dispatch layer of the Typesense
embedded HTTP server (`src/http_server.cpp`).

The embedding below models, directly from the source:
  - `HttpServer::parse_query` (regex scan, percent-decoding, duplicate-key
    concatenation with the two-character separator),
  - the route table and the matching loop of `HttpServer::catch_all_handler`
    (method filter, segment-count filter, pairwise left-to-right segment
    comparison, first match in registration order),
  - the auth gate, the fixed 401 and 404 responses, and the CORS preflight
    interception,
  - the path-parameter merge into the query map (`std::map::emplace`,
    skip-if-present),
  - the streaming-response generator (`stream_response`,
    `response_proceed`, `response_stop`),
  - the cross-thread message relay drain (`HttpServer::on_message`) and the
    final drain performed by the destructor.

Machine integers do not occur on the modelled paths; strings are Lean
`String`s, containers are Lean `List`s, and the `std::map` instances are
modelled as association lists with unique keys together with the lookup,
insert-or-assign and emplace operations actually used by the code.
-/

/-- An entry of the route table, mirroring `route_path` from the source:
HTTP method, the `/`-split pattern segments, the handler (modelled by an
opaque numeric identifier, since handlers are function pointers supplied by
the embedding application), and the `async` (streaming) flag. -/
structure route_path where
  http_method : String
  path_parts : List String
  handler : Nat
  async : Bool

deriving instance DecidableEq, Repr for route_path

/-- Lookup in an association-list model of `std::map<std::string,std::string>`:
returns the value bound to the first occurrence of the key. -/
def qlookup : List (String × String) → String → Option String
  | [], _ => none
  | kv :: rest, k => if kv.1 = k then some kv.2 else qlookup rest k

/-- `m[k] = v` on the map model: replace the binding of `k` if present,
otherwise add one. -/
def qset : List (String × String) → String → String → List (String × String)
  | [], k, v => [(k, v)]
  | kv :: rest, k, v => if kv.1 = k then (k, v) :: rest else kv :: qset rest k v

/-- `m.emplace(k, v)` on the map model: insert only when the key is absent
(skip-if-present), exactly the semantics of `std::map::emplace`. -/
def qemplace (m : List (String × String)) (k v : String) : List (String × String) :=
  match qlookup m k with
  | some _ => m
  | none => m ++ [(k, v)]

/-- Character class of the query-key regex `[\w+%-]`: word characters
(letters, digits, underscore) plus `+`, `%` and `-`. -/
def isKeyChar (c : Char) : Bool :=
  c.isAlphanum || c = '_' || c = '+' || c = '%' || c = '-'

/-- Value of a hexadecimal digit, if any. -/
def hexVal (c : Char) : Option Nat :=
  if c.isDigit then some (c.toNat - 48)
  else if 97 ≤ c.toNat ∧ c.toNat ≤ 102 then some (c.toNat - 87)
  else if 65 ≤ c.toNat ∧ c.toNat ≤ 70 then some (c.toNat - 55)
  else none

/-- Modelled from the spec: `StringUtils::url_decode` lives in
`string_utils.h`, which is not among the sources here; §4.4 of the spec says
query values are percent-decoded. A `%` followed by two hex digits becomes
the character with that code, everything else is kept as is. -/
def url_decode_chars : List Char → List Char
  | [] => []
  | '%' :: a :: b :: rest =>
    match hexVal a, hexVal b with
    | some x, some y => Char.ofNat (16 * x + y) :: url_decode_chars rest
    | _, _ => '%' :: url_decode_chars (a :: b :: rest)
  | c :: rest => c :: url_decode_chars rest

/-- String wrapper for the percent-decoder. -/
def url_decode (s : String) : String :=
  String.mk (url_decode_chars s.toList)

/-- The successive matches of the regex `([\w+%-]+)=([^&]*)` over the query
string, as produced by `std::sregex_iterator` in `HttpServer::parse_query`:
at each position, a maximal run of key characters immediately followed by
`=` yields a match whose value is the maximal following run of non-`&`
characters; scanning resumes after the value. Text that fits no match is
skipped one character at a time. -/
def scanQueryAux : Nat → List Char → List (String × String)
  | 0, _ => []
  | _, [] => []
  | fuel + 1, c :: rest =>
    if isKeyChar c then
      match List.dropWhile isKeyChar (c :: rest) with
      | '=' :: vrest =>
        (String.mk (List.takeWhile isKeyChar (c :: rest)),
         String.mk (List.takeWhile (fun ch => ch ≠ '&') vrest))
          :: scanQueryAux fuel (List.dropWhile (fun ch => ch ≠ '&') vrest)
      | _ => scanQueryAux fuel rest
    else
      scanQueryAux fuel rest

/-- The scan of the whole query string. Every recursive step of
`scanQueryAux` strictly shortens the character list, so a fuel of one more
than the length is always enough and the fuel never runs out. -/
def scanQuery (cs : List Char) : List (String × String) :=
  scanQueryAux (cs.length + 1) cs

/-- One regex match is folded into the accumulated map exactly as in the
body of the loop of `HttpServer::parse_query`: a fresh key is inserted with
its decoded value; a repeated key gets the old value, `&&` and the new
decoded value concatenated. -/
def add_query_kv (m : List (String × String)) (k v : String) : List (String × String) :=
  match qlookup m k with
  | none => m ++ [(k, v)]
  | some old => qset m k (old ++ "&&" ++ v)

/-- `HttpServer::parse_query`: scan the query string with the regex and fold
every match into the map, decoding values. -/
def parse_query (query : String) : List (String × String) :=
  (scanQuery query.toList).foldl (fun m kv => add_query_kv m kv.1 (url_decode kv.2)) []

/-- The test of the source comparing the first character of a segment with
the colon character: whether the first character of a string is the given
one (false for the empty string, where index 0 yields the null character
in C++, never a colon). -/
def first_char_is (s : String) (c : Char) : Bool :=
  match s.toList with
  | [] => false
  | ch :: _ => ch = c

/-- The suffix `s.substr(1)` of the source, on the model: the string without
its first character. -/
def string_tail (s : String) : String :=
  String.mk (s.toList.drop 1)

/-- One segment comparison of the matching loop in
`HttpServer::catch_all_handler`: the route segment must equal the request
segment, unless the route segment starts with `:` (a parameter, which
matches anything). -/
def seg_matches (rpart given_part : String) : Bool :=
  rpart = given_part || first_char_is rpart ':'

/-- The candidate test of the matching loop: same segment count, same HTTP
method, and all segments match pairwise left to right. -/
def route_matches (r : route_path) (http_method : String) (path_parts : List String) : Bool :=
  r.path_parts.length = path_parts.length && r.http_method = http_method &&
    (r.path_parts.zip path_parts).all (fun pg => seg_matches pg.1 pg.2)

/-- The route-table scan of `catch_all_handler`: the first route in
registration order that passes `route_matches` wins. -/
def find_matching_route (routes : List route_path) (http_method : String)
    (path_parts : List String) : Option route_path :=
  routes.find? (fun r => route_matches r http_method path_parts)

/-- The path-parameter merge of `catch_all_handler`, applied to the zipped
(route segment, request segment) pairs: every route segment starting with
`:` emplaces (skip-if-present) its name, bound to the request segment, into
the query map. -/
def merge_path_params (qm : List (String × String)) :
    List (String × String) → List (String × String)
  | [] => qm
  | pg :: rest =>
    merge_path_params
      (if first_char_is pg.1 ':' then qemplace qm (string_tail pg.1) pg.2 else qm) rest

/-- The server state visible to the dispatcher: the CORS flag, the
registered routes in registration order, the pluggable auth gate, and the
credential header name (the `AUTH_HEADER` constant; its literal value lives
in `http_data.h`, outside these sources, so it is kept as a parameter — the
spec, §6, only requires header and query parameter to share one name). -/
structure ServerModel where
  cors_enabled : Bool
  routes : List route_path
  auth_handler : route_path → String → Bool
  auth_header : String

/-- A parsed request as delivered by the transport runtime: method, the
`/`-split path segments, the raw query string, the headers (names already
lowercased by the h2o transport), and the body. -/
structure RequestModel where
  http_method : String
  path_parts : List String
  query_str : String
  headers : List (String × String)
  body : String

/-- What the dispatcher does with a request: answer a CORS preflight
directly, reject with the fixed 401, invoke a handler (carrying the handler
identifier, the merged parameter map, the body and the async flag), or
answer with the fixed 404. -/
inductive DispatchResult where
  | corsPreflight (status : Nat) (body : String) (headers : List (String × String))
  | unauthorized (status : Nat) (body : String) (headers : List (String × String))
  | handled (handler : Nat) (params : List (String × String)) (body : String) (async : Bool)
  | notFound (status : Nat) (body : String) (headers : List (String × String))

deriving instance DecidableEq, Repr for DispatchResult

/-- The content type attached to every JSON response in the source. -/
def json_content_type : String := "application/json; charset=utf-8"

/-- The exact 404 body of `catch_all_handler` (note the space after the
opening brace in the source literal). -/
def not_found_body : String := "\x7b \"message\": \"Not Found\"\x7d"

/-- The exact 401 body built by `HttpServer::send_401_unauthorized`, with
the credential header name spliced in between backquotes. -/
def forbidden_body (auth_header : String) : String :=
  "\x7b\"message\": \"Forbidden - a valid `" ++ auth_header ++ "` header must be sent.\"\x7d"

/-- The header added to every response when CORS is enabled. -/
def base_headers (s : ServerModel) : List (String × String) :=
  if s.cors_enabled then [("access-control-allow-origin", "*")] else []

/-- The response headers of the CORS preflight answer, echoing the value of
the access-control-request-headers header. -/
def cors_preflight_headers (acl_req_headers : String) : List (String × String) :=
  [("access-control-allow-origin", "*"),
   ("access-control-allow-methods", "POST, GET, DELETE, PUT, PATCH, OPTIONS"),
   ("access-control-allow-headers", acl_req_headers),
   ("access-control-max-age", "86400")]

/-- Credential extraction of `catch_all_handler`: the designated header if
present (first occurrence, as `h2o_find_header_by_str` with cursor -1),
else the query parameter of the same name, else the empty string. -/
def extract_auth_key (s : ServerModel) (req : RequestModel)
    (query_map : List (String × String)) : String :=
  match req.headers.find? (fun h => h.1 = s.auth_header) with
  | some p => p.2
  | none =>
    match qlookup query_map s.auth_header with
    | some v => v
    | none => ""

/-- The routing tail of `catch_all_handler`, after the CORS preflight check:
find the first matching route; on a match run the auth gate and either send
the fixed 401 or merge the path parameters and invoke the handler; with no
match send the fixed 404. -/
def route_dispatch (s : ServerModel) (req : RequestModel)
    (query_map : List (String × String)) (auth_key : String) : DispatchResult :=
  match find_matching_route s.routes req.http_method req.path_parts with
  | some r =>
    if s.auth_handler r auth_key then
      DispatchResult.handled r.handler
        (merge_path_params query_map (r.path_parts.zip req.path_parts)) req.body r.async
    else
      DispatchResult.unauthorized 401 (forbidden_body s.auth_header)
        (base_headers s ++ [("content-type", json_content_type)])
  | none =>
    DispatchResult.notFound 404 not_found_body
      (base_headers s ++ [("content-type", json_content_type)])

/-- `HttpServer::catch_all_handler`: parse the query, extract the
credential, intercept a CORS preflight (CORS enabled, method OPTIONS and an
access-control-request-headers header present) with the fixed 200 answer,
and otherwise fall through to routing. -/
def catch_all_handler (s : ServerModel) (req : RequestModel) : DispatchResult :=
  let query_map := parse_query req.query_str
  let auth_key := extract_auth_key s req query_map
  if s.cors_enabled && req.http_method = "OPTIONS" then
    match req.headers.find? (fun h => h.1 = "access-control-request-headers") with
    | some p => DispatchResult.corsPreflight 200 "" (cors_preflight_headers p.2)
    | none => route_dispatch s req query_map auth_key
  else
    route_dispatch s req query_map auth_key


/-- The response context `http_res` as used by the streaming code: status,
content type, the body buffer accumulated across turns, and the final flag
(its fields are those the source reads and writes; the struct itself is
declared in `http_data.h`, alongside these sources). -/
structure http_res where
  status_code : Nat
  content_type_header : String
  body : String
  final : Bool

deriving instance DecidableEq, Repr for http_res

/-- One write handed to the transport by `h2o_send`: the body bytes and
whether the send state was `H2O_SEND_STATE_FINAL` (true) or
`H2O_SEND_STATE_IN_PROGRESS` (false). -/
structure WriteEvt where
  body : String
  final : Bool

deriving instance DecidableEq, Repr for WriteEvt

/-- One invocation of the user resumption handler stored in
`h2o_custom_generator_t`: it may mutate the response and its opaque
per-stream data, modelled as a state of type `σ`. -/
def step_res {σ : Type} (h : σ → http_res → http_res × σ) (st : http_res × σ) :
    http_res × σ :=
  h st.2 st.1

/-- The handler iterated `n` times from a starting response/state pair. -/
def iterate_handler {σ : Type} (h : σ → http_res → http_res × σ) :
    Nat → http_res × σ → http_res × σ
  | 0, st => st
  | n + 1, st => iterate_handler h n (step_res h st)

/-- `HttpServer::response_proceed`, one write-readiness turn: invoke the
resumption handler, flush the buffered body as a final chunk when the
handler set `final`, as an in-progress chunk otherwise, and on a final
chunk release the request, the response and the generator (modelled by
returning `none` for the surviving stream state). -/
def response_proceed_model {σ : Type} (h : σ → http_res → http_res × σ)
    (st : http_res × σ) : WriteEvt × Option (http_res × σ) :=
  let st2 := step_res h st
  (⟨st2.1.body, st2.1.final⟩, if st2.1.final then none else some st2)

/-- `HttpServer::response_stop`, the abrupt-close transition: release the
request, the response and the generator; no handler call, no write. The
second and third components record the writes issued and the handler
invocations performed (none). -/
def response_stop_model {σ : Type} (st : http_res × σ) :
    Option (http_res × σ) × List WriteEvt × Nat :=
  (none, [], 0)

/-- `HttpServer::stream_response`, the opt-in step: set status and content
type and send one empty in-progress chunk; the stream state stays alive. -/
def stream_response_model {σ : Type} (res : http_res) (s : σ) :
    WriteEvt × (http_res × σ) :=
  (⟨"", false⟩, (res, s))

/-- `n` write-readiness turns driven against a live stream state: each turn
is one `response_proceed`; after a final chunk the state is gone and no
further turn happens. Returns the writes issued and the surviving state. -/
def run_proceeds {σ : Type} (h : σ → http_res → http_res × σ) :
    Nat → http_res × σ → List WriteEvt × Option (http_res × σ)
  | 0, st => ([], some st)
  | n + 1, st =>
    let pr := response_proceed_model h st
    match pr.2 with
    | none => ([pr.1], none)
    | some st2 =>
      let rest := run_proceeds h n st2
      (pr.1 :: rest.1, rest.2)

/-- A complete streaming exchange: the opt-in step of `stream_response`
followed by `n` write-readiness turns. Returns all writes issued to the
transport, in order, and the surviving stream state (`none` = released). -/
def stream_exchange {σ : Type} (h : σ → http_res → http_res × σ)
    (res0 : http_res) (s0 : σ) (n : Nat) : List WriteEvt × Option (http_res × σ) :=
  let init := stream_response_model res0 s0
  let r := run_proceeds h n init.2
  (init.1 :: r.1, r.2)

/-- A streaming exchange aborted by the transport: the opt-in step, `k`
write-readiness turns, then — if the stream is still live — the abrupt-close
transition `response_stop`. Returns the writes issued, the surviving stream
state, and the total number of resumption-handler invocations. -/
def stream_exchange_stopped {σ : Type} (h : σ → http_res → http_res × σ)
    (res0 : http_res) (s0 : σ) (k : Nat) :
    List WriteEvt × Option (http_res × σ) × Nat :=
  let init := stream_response_model res0 s0
  let r := run_proceeds h k init.2
  match r.2 with
  | some st =>
    let sp := response_stop_model st
    (init.1 :: r.1 ++ sp.2.1, sp.1, r.1.length + sp.2.2)
  | none => (init.1 :: r.1, none, r.1.length)

/-- A message of the cross-thread relay (`h2o_custom_res_message_t`): an
identity for the allocation, the type tag and the opaque payload (modelled
by a numeric identifier). -/
structure Msg where
  id : Nat
  type : String
  data : Nat

deriving instance DecidableEq, Repr for Msg

/-- Observable steps of the relay drain: a registered callback invoked with
the payload of a message (tagged with the identity of that message), or a message
unlinked and deleted. -/
inductive RelayEvent where
  | invoked (id : Nat) (type : String) (data : Nat)
  | destroyed (id : Nat)

deriving instance DecidableEq, Repr for RelayEvent

/-- `HttpServer::on_message`, the drain loop on the owning thread: for each
message of the inbox in order, invoke the registered callback for its type
if there is one, then unlink and delete the message. The whole inbox is
consumed. `registered t` models `message_handlers.count(t) != 0`. -/
def on_message (registered : String → Bool) : List Msg → List RelayEvent
  | [] => []
  | m :: rest =>
    (if registered m.type then [RelayEvent.invoked m.id m.type m.data] else [])
      ++ RelayEvent.destroyed m.id :: on_message registered rest

/-- Teardown steps of `HttpServer::~HttpServer`: the relay-drain events,
then the release of the resources held by the relay (unregister receiver,
destroy queue). -/
inductive TeardownEvent where
  | drained (e : RelayEvent)
  | relayReleased

deriving instance DecidableEq, Repr for TeardownEvent

/-- The relay part of `HttpServer::~HttpServer`: drain all messages still in
the inbox once, then release the resources held by the relay. -/
def http_server_destructor (registered : String → Bool) (inbox : List Msg) :
    List TeardownEvent :=
  (on_message registered inbox).map TeardownEvent.drained ++ [TeardownEvent.relayReleased]

/-- Folding step describing the duplicate-key behaviour of `parse_query`: a
first value is kept, every further value of the same key is appended behind
the two-character separator. -/
def dup_join : Option String → String → Option String
  | none, v => some v
  | some acc, v => some (acc ++ "&&" ++ v)

/-- A parameterised route, `GET /items/:id`. -/
def route_items_param : route_path := ⟨"GET", ["items", ":id"], 1, false⟩

/-- A literal route of the same method and segment count, `GET /items/special`. -/
def route_items_special : route_path := ⟨"GET", ["items", "special"], 2, false⟩

/-- An auth gate that rejects every request. -/
def deny_all_auth : route_path → String → Bool := fun _ _ => false

/-- An auth gate that accepts every request. -/
def allow_all_auth : route_path → String → Bool := fun _ _ => true

/-- A server with two overlapping routes, in registration order. -/
def server_two_routes : ServerModel :=
  ⟨false, [route_items_param, route_items_special], allow_all_auth, "x-api-key"⟩

/-- A server whose auth gate rejects everything. -/
def server_deny : ServerModel := ⟨false, [route_items_param], deny_all_auth, "x-api-key"⟩

/-- A server with an empty route table. -/
def server_empty : ServerModel := ⟨false, [], allow_all_auth, "x-api-key"⟩

/-- A CORS-enabled server. -/
def server_cors : ServerModel := ⟨true, [route_items_param], deny_all_auth, "x-api-key"⟩

/-- A request for `/items/special`, matched by both routes above. -/
def req_items_special : RequestModel := ⟨"GET", ["items", "special"], "", [], ""⟩

/-- An OPTIONS request carrying an access-control-request-headers header. -/
def req_options_acl : RequestModel :=
  ⟨"OPTIONS", ["items", "1"], "", [("access-control-request-headers", "X-Foo")], ""⟩

/-- An OPTIONS request without the access-control-request-headers header. -/
def req_options_plain : RequestModel := ⟨"OPTIONS", ["items", "1"], "", [], ""⟩

/-- The response context a streaming handler starts from. -/
def res_start : http_res := ⟨200, "application/json; charset=utf-8", "", false⟩

/-- A resumption handler that appends one chunk per turn and flips `final`
on its second invocation (its opaque data counts the turns already run). -/
def chunking_handler : Nat → http_res → http_res × Nat :=
  fun s r => (http_res.mk r.status_code r.content_type_header (r.body ++ "a") (s == 1), s + 1)

/-- A resumption handler that finishes on its first invocation. -/
def one_shot_handler : Unit → http_res → http_res × Unit :=
  fun _ r => (http_res.mk r.status_code r.content_type_header "x" true, ())

/-- A resumption handler that never sets `final`. -/
def endless_handler : Unit → http_res → http_res × Unit :=
  fun _ r => (http_res.mk r.status_code r.content_type_header (r.body ++ "b") false, ())

/-- A relay message whose type has a registered callback below. -/
def msg_reg : Msg := ⟨0, "search_result", 10⟩

/-- A relay message whose type has no registered callback below. -/
def msg_unreg : Msg := ⟨1, "unknown_kind", 11⟩

/-- A callback registry knowing exactly one message type. -/
def sample_registered : String → Bool := fun t => t = "search_result"

/-- A two-message inbox. -/
def sample_inbox : List Msg := [msg_reg, msg_unreg]

theorem qlookup_qset (m : List (String × String)) (k v k' : String) :
    qlookup (qset m k v) k' = if k = k' then some v else qlookup m k' := by
  induction m with
  | nil => simp [qset, qlookup]
  | cons kv rest ih =>
    simp only [qset]
    by_cases h1 : kv.1 = k
    · rw [if_pos h1]
      by_cases h2 : k = k' <;> simp [qlookup, h1, h2]
    · rw [if_neg h1]
      by_cases h2 : kv.1 = k'
      · have hk : k ≠ k' := by
          intro h
          exact h1 (by rw [h2, h])
        simp [qlookup, h2, hk]
      · simp only [qlookup, if_neg h2, ih]

theorem qlookup_append_one (m : List (String × String)) (k v k' : String) :
    qlookup (m ++ [(k, v)]) k' =
      match qlookup m k' with
      | some x => some x
      | none => if k = k' then some v else none := by
  induction m with
  | nil =>
    by_cases h : k = k' <;> simp [qlookup, h]
  | cons kv rest ih =>
    by_cases h : kv.1 = k' <;> simp [qlookup, h, ih]

theorem qlookup_qemplace (m : List (String × String)) (k v k' : String) :
    qlookup (qemplace m k v) k' =
      match qlookup m k' with
      | some x => some x
      | none => if k = k' then some v else none := by
  unfold qemplace
  cases hm : qlookup m k with
  | some w =>
    cases hm' : qlookup m k' with
    | some x => rfl
    | none =>
      by_cases h : k = k'
      · rw [h] at hm
        rw [hm] at hm'
        exact absurd hm' (by simp)
      · simp [h]
  | none => exact qlookup_append_one m k v k'

theorem qlookup_add_query_kv (m : List (String × String)) (k1 v k : String) :
    qlookup (add_query_kv m k1 v) k =
      if k1 = k then dup_join (qlookup m k1) v else qlookup m k := by
  unfold add_query_kv
  cases hm : qlookup m k1 with
  | none =>
    rw [qlookup_append_one]
    by_cases h : k1 = k
    · rw [← h, hm]
      simp [dup_join, h]
    · cases hm' : qlookup m k <;> simp [h, dup_join]
  | some old =>
    rw [qlookup_qset]
    by_cases h : k1 = k
    · simp [h, dup_join]
    · simp [h]

theorem parse_fold_lookup (l : List (String × String)) (m : List (String × String)) (k : String) :
    qlookup (l.foldl (fun m2 kv => add_query_kv m2 kv.1 (url_decode kv.2)) m) k =
      ((l.filter (fun kv => kv.1 = k)).map (fun kv => url_decode kv.2)).foldl
        dup_join (qlookup m k) := by
  induction l generalizing m with
  | nil => rfl
  | cons kv rest ih =>
    simp only [List.foldl_cons, List.filter_cons]
    by_cases h : kv.1 = k
    · simp [h, qlookup_add_query_kv, ih]
    · simp [h, qlookup_add_query_kv, ih]

theorem catch_all_not_preflight (s : ServerModel) (req : RequestModel)
    (hnp : ¬(s.cors_enabled = true ∧ req.http_method = "OPTIONS" ∧
      (req.headers.find? (fun h => h.1 = "access-control-request-headers")).isSome = true)) :
    catch_all_handler s req =
      route_dispatch s req (parse_query req.query_str)
        (extract_auth_key s req (parse_query req.query_str)) := by
  unfold catch_all_handler
  by_cases h1 : s.cors_enabled = true
  · by_cases h2 : req.http_method = "OPTIONS"
    · cases hf : req.headers.find? (fun h => h.1 = "access-control-request-headers") with
      | some p => exact absurd ⟨h1, h2, by rw [hf]; rfl⟩ hnp
      | none => simp [h1, h2, hf]
    · simp [h2]
  · have hc : s.cors_enabled = false := by
      revert h1
      cases s.cors_enabled <;> simp
    simp [hc]

/-- C2: a request that matches a route but is rejected by the auth gate is
answered with status 401 and the fixed forbidden body (with the configured
credential header name spliced in), and no handler is invoked. -/
theorem auth_failure_fixed_401 (s : ServerModel) (req : RequestModel) (r : route_path)
    (hnp : ¬(s.cors_enabled = true ∧ req.http_method = "OPTIONS" ∧
      (req.headers.find? (fun h => h.1 = "access-control-request-headers")).isSome = true))
    (hr : find_matching_route s.routes req.http_method req.path_parts = some r)
    (ha : s.auth_handler r (extract_auth_key s req (parse_query req.query_str)) = false) :
    catch_all_handler s req =
      DispatchResult.unauthorized 401 (forbidden_body s.auth_header)
        (base_headers s ++ [("content-type", json_content_type)]) ∧
    ∀ hid params body a, catch_all_handler s req ≠ DispatchResult.handled hid params body a := by
  have he := catch_all_not_preflight s req hnp
  rw [he]
  unfold route_dispatch
  rw [hr]
  simp [ha]

theorem auth_failure_fixed_401_witness :
    catch_all_handler server_deny req_items_special =
      DispatchResult.unauthorized 401 (forbidden_body "x-api-key")
        [("content-type", json_content_type)] := by
  have h := (auth_failure_fixed_401 server_deny req_items_special route_items_param
    (by decide) rfl rfl).1
  simpa [server_deny, base_headers] using h

/-- C3 counterexample: at a concrete unmatched request the 404 body sent by
the dispatcher is the source literal with a space after the opening brace,
not the exact body without that space given in the specification. -/
theorem not_found_body_differs :
    catch_all_handler server_empty (RequestModel.mk "GET" ["nope"] "" [] "") =
      DispatchResult.notFound 404 "\x7b \"message\": \"Not Found\"\x7d"
        [("content-type", "application/json; charset=utf-8")] ∧
    catch_all_handler server_empty (RequestModel.mk "GET" ["nope"] "" [] "") ≠
      DispatchResult.notFound 404 "\x7b\"message\": \"Not Found\"\x7d"
        [("content-type", "application/json; charset=utf-8")] := by
  constructor
  · decide
  · decide

/-- C3 amended: a request matching no route (and not intercepted as a CORS
preflight) is answered with status 404, content type
application/json; charset=utf-8, and the fixed body consisting of a brace,
a space, the quoted message pair and a closing brace (the source literal
keeps a space after the opening brace). -/
theorem no_match_fixed_404 (s : ServerModel) (req : RequestModel)
    (hnp : ¬(s.cors_enabled = true ∧ req.http_method = "OPTIONS" ∧
      (req.headers.find? (fun h => h.1 = "access-control-request-headers")).isSome = true))
    (hr : find_matching_route s.routes req.http_method req.path_parts = none) :
    catch_all_handler s req =
      DispatchResult.notFound 404 not_found_body
        (base_headers s ++ [("content-type", json_content_type)]) ∧
    not_found_body = "\x7b \"message\": \"Not Found\"\x7d" := by
  have he := catch_all_not_preflight s req hnp
  rw [he]
  unfold route_dispatch
  rw [hr]
  exact ⟨rfl, rfl⟩

theorem no_match_fixed_404_witness :
    catch_all_handler server_empty (RequestModel.mk "GET" ["nope"] "" [] "") =
      DispatchResult.notFound 404 not_found_body [("content-type", json_content_type)] := by
  have h := (no_match_fixed_404 server_empty (RequestModel.mk "GET" ["nope"] "" [] "")
    (by decide) rfl).1
  simpa [server_empty, base_headers] using h

/-- C6: with CORS enabled, an OPTIONS request carrying an
access-control-request-headers header is answered directly with status 200,
an empty body, the echoed requested headers, the advertised method list and
a max-age of 86400 — independently of the route table and of the auth gate —
while an OPTIONS request without that header falls through to routing. -/
theorem cors_preflight_direct (s : ServerModel) (req : RequestModel) (p : String × String)
    (hc : s.cors_enabled = true) (hm : req.http_method = "OPTIONS")
    (hh : req.headers.find? (fun h => h.1 = "access-control-request-headers") = some p) :
    catch_all_handler s req =
      DispatchResult.corsPreflight 200 ""
        [("access-control-allow-origin", "*"),
         ("access-control-allow-methods", "POST, GET, DELETE, PUT, PATCH, OPTIONS"),
         ("access-control-allow-headers", p.2),
         ("access-control-max-age", "86400")] ∧
    (∀ (routes2 : List route_path) (auth2 : route_path → String → Bool),
      catch_all_handler (ServerModel.mk s.cors_enabled routes2 auth2 s.auth_header) req =
        catch_all_handler s req) ∧
    (∀ req2 : RequestModel,
      req2.headers.find? (fun h => h.1 = "access-control-request-headers") = none →
      catch_all_handler s req2 =
        route_dispatch s req2 (parse_query req2.query_str)
          (extract_auth_key s req2 (parse_query req2.query_str))) := by
  refine ⟨?_, ?_, ?_⟩
  · unfold catch_all_handler
    simp [hc, hm, hh, cors_preflight_headers]
  · intro routes2 auth2
    unfold catch_all_handler
    simp [hc, hm, hh, extract_auth_key]
  · intro req2 hh2
    apply catch_all_not_preflight
    intro hcontra
    rw [hh2] at hcontra
    exact absurd hcontra.2.2 (by simp)

theorem cors_preflight_direct_witness :
    catch_all_handler server_cors req_options_acl =
      DispatchResult.corsPreflight 200 ""
        [("access-control-allow-origin", "*"),
         ("access-control-allow-methods", "POST, GET, DELETE, PUT, PATCH, OPTIONS"),
         ("access-control-allow-headers", "X-Foo"),
         ("access-control-max-age", "86400")] :=
  (cors_preflight_direct server_cors req_options_acl
    ("access-control-request-headers", "X-Foo") rfl rfl (by decide)).1

theorem merge_keeps_existing (pairs : List (String × String)) (qm : List (String × String))
    (name v : String) (h : qlookup qm name = some v) :
    qlookup (merge_path_params qm pairs) name = some v := by
  induction pairs generalizing qm with
  | nil => exact h
  | cons pg rest ih =>
    unfold merge_path_params
    apply ih
    by_cases hc : first_char_is pg.1 ':'
    · rw [if_pos hc, qlookup_qemplace, h]
    · rw [if_neg hc]
      exact h

theorem merge_fills_absent (pairs : List (String × String)) (qm : List (String × String))
    (name : String) (pv : String × String) (h0 : qlookup qm name = none)
    (hf : pairs.find? (fun pg => first_char_is pg.1 ':' && string_tail pg.1 = name) = some pv) :
    qlookup (merge_path_params qm pairs) name = some pv.2 := by
  induction pairs generalizing qm with
  | nil => exact absurd hf (by simp)
  | cons pg rest ih =>
    unfold merge_path_params
    by_cases hp : (first_char_is pg.1 ':' && decide (string_tail pg.1 = name)) = true
    · simp only [List.find?_cons, hp] at hf
      have hpv : pg = pv := by injection hf
      obtain ⟨hc, ht⟩ := Bool.and_eq_true .. |>.mp hp
      rw [if_pos hc]
      apply merge_keeps_existing
      rw [qlookup_qemplace, h0, decide_eq_true_eq.mp ht, if_pos rfl, hpv]
    · have hpf : (first_char_is pg.1 ':' && decide (string_tail pg.1 = name)) = false := by
        revert hp
        cases first_char_is pg.1 ':' && decide (string_tail pg.1 = name) <;> simp
      simp only [List.find?_cons, hpf] at hf
      apply ih _ _ hf
      by_cases hc : first_char_is pg.1 ':'
      · rw [if_pos hc, qlookup_qemplace, h0]
        have ht : ¬ string_tail pg.1 = name := by
          intro hteq
          exact hp (by simp [hc, hteq])
        simp [ht]
      · rw [if_neg hc]
        exact h0

/-- C4: merging path parameters into the query map is skip-if-present — a
query parameter already bound to a name is never overwritten by a same-named
path parameter, while a name absent from the query map receives the
captured request segment of the first matching parameter segment; and the
authenticated dispatch path hands the handler exactly this merged map. -/
theorem path_params_skip_if_present (qm pairs : List (String × String)) (name : String) :
    (∀ v, qlookup qm name = some v →
      qlookup (merge_path_params qm pairs) name = some v) ∧
    (∀ pv, qlookup qm name = none →
      pairs.find? (fun pg => first_char_is pg.1 ':' && string_tail pg.1 = name) = some pv →
      qlookup (merge_path_params qm pairs) name = some pv.2) ∧
    (∀ (s : ServerModel) (req : RequestModel) (r : route_path) (key : String),
      find_matching_route s.routes req.http_method req.path_parts = some r →
      s.auth_handler r key = true →
      route_dispatch s req qm key =
        DispatchResult.handled r.handler
          (merge_path_params qm (r.path_parts.zip req.path_parts)) req.body r.async) := by
  refine ⟨?_, ?_, ?_⟩
  · intro v h
    exact merge_keeps_existing pairs qm name v h
  · intro pv h0 hf
    exact merge_fills_absent pairs qm name pv h0 hf
  · intro s req r key hfind hauth
    unfold route_dispatch
    rw [hfind]
    simp [hauth]

theorem path_params_skip_if_present_witness :
    qlookup (merge_path_params [("id", "fromquery")] [(":id", "42")]) "id" = some "fromquery" ∧
    qlookup (merge_path_params [] [(":id", "42")]) "id" = some "42" :=
  ⟨(path_params_skip_if_present [("id", "fromquery")] [(":id", "42")] "id").1 "fromquery" rfl,
   (path_params_skip_if_present [] [(":id", "42")] "id").2.1 (":id", "42") rfl rfl⟩

/-- C5: looking up any key in the parsed query map yields the decoded values
of the regex matches for that key joined in order of appearance by the
two-character separator (entries not matching the key=value shape never
produce a regex match and are silently ignored); in particular a=1&a=2
parses to the single entry binding a to 1&&2, and a query with malformed
entries keeps exactly its well-formed ones, percent-decoded. -/
theorem parse_query_duplicate_join (q k : String) :
    qlookup (parse_query q) k =
      (((scanQuery q.toList).filter (fun kv => kv.1 = k)).map
        (fun kv => url_decode kv.2)).foldl dup_join none ∧
    parse_query "a=1&a=2" = [("a", "1&&2")] ∧
    parse_query "=x&&&foo!bar&a=1%41" = [("a", "1A")] := by
  refine ⟨?_, by decide, by decide⟩
  have h := parse_fold_lookup (scanQuery q.toList) [] k
  simpa [parse_query, qlookup] using h

theorem find?_first_of_sat {α : Type} (p : α → Bool) (l : List α) (i : Nat)
    (hi : i < l.length) (hp : p (l.get ⟨i, hi⟩) = true) :
    ∃ k, ∃ hk : k < l.length, k ≤ i ∧ p (l.get ⟨k, hk⟩) = true ∧
      l.find? p = some (l.get ⟨k, hk⟩) ∧
      ∀ k2, ∀ hk2 : k2 < l.length, k2 < k → p (l.get ⟨k2, hk2⟩) = false := by
  induction l generalizing i with
  | nil => exact absurd hi (by simp)
  | cons a t ih =>
    by_cases hpa : p a = true
    · refine ⟨0, by simp, Nat.zero_le i, by simpa using hpa, ?_, ?_⟩
      · rw [List.find?_cons_of_pos _ hpa]
        rfl
      · intro k2 hk2 hlt
        exact absurd hlt (Nat.not_lt_zero k2)
    · have hpaf : p a = false := by
        revert hpa
        cases p a <;> simp
      cases i with
      | zero => exact absurd (by simpa using hp) hpa
      | succ i2 =>
        have hi2 : i2 < t.length := by simpa using hi
        have hp2 : p (t.get ⟨i2, hi2⟩) = true := by simpa using hp
        obtain ⟨k, hk, hki, hpk, hfind, hmin⟩ := ih i2 hi2 hp2
        refine ⟨k + 1, by simpa using hk, Nat.succ_le_succ hki, by simpa using hpk, ?_, ?_⟩
        · rw [List.find?_cons_of_neg _ hpa, hfind]
          rfl
        · intro k2 hk2 hlt
          cases k2 with
          | zero => simpa using hpaf
          | succ k3 =>
            have := hmin k3 (by simpa using hk2) (Nat.lt_of_succ_lt_succ hlt)
            simpa using this

theorem all_zip_get (f : String × String → Bool) (l1 : List String) :
    ∀ (l2 : List String) (i : Nat) (ha : i < l1.length) (hb : i < l2.length),
      ((l1.zip l2).all f = true) → f (l1.get ⟨i, ha⟩, l2.get ⟨i, hb⟩) = true := by
  induction l1 with
  | nil =>
    intro l2 i ha
    exact absurd ha (by simp)
  | cons a t1 ih =>
    intro l2 i ha hb hall
    cases l2 with
    | nil => exact absurd hb (by simp)
    | cons b t2 =>
      simp only [List.zip_cons_cons, List.all_cons, Bool.and_eq_true] at hall
      cases i with
      | zero => simpa using hall.1
      | succ i2 =>
        have := ih t2 i2 (by simpa using ha) (by simpa using hb) hall.2
        simpa using this

/-- C1: among routes of the same method and segment count that all match a
request, the one registered first wins — the dispatched route is the first
match in registration order, so it sits no later than the earlier of any
matching pair, it passed the method and segment-count filters, its segments
match pairwise left to right, it is exactly the earlier route of the pair
when nothing before that route matches, and (when authenticated) its
handler is the one invoked. -/
theorem registration_order_wins (s : ServerModel) (req : RequestModel) (i j : Nat)
    (hi : i < s.routes.length) (hj : j < s.routes.length) (hij : i < j)
    (h1 : route_matches (s.routes.get ⟨i, hi⟩) req.http_method req.path_parts = true)
    (h2 : route_matches (s.routes.get ⟨j, hj⟩) req.http_method req.path_parts = true) :
    ∃ k, ∃ hk : k < s.routes.length, k ≤ i ∧
      route_matches (s.routes.get ⟨k, hk⟩) req.http_method req.path_parts = true ∧
      find_matching_route s.routes req.http_method req.path_parts =
        some (s.routes.get ⟨k, hk⟩) ∧
      (s.routes.get ⟨k, hk⟩).http_method = req.http_method ∧
      (s.routes.get ⟨k, hk⟩).path_parts.length = req.path_parts.length ∧
      (∀ idx (ha : idx < (s.routes.get ⟨k, hk⟩).path_parts.length)
          (hb : idx < req.path_parts.length),
        (s.routes.get ⟨k, hk⟩).path_parts.get ⟨idx, ha⟩ = req.path_parts.get ⟨idx, hb⟩ ∨
        first_char_is ((s.routes.get ⟨k, hk⟩).path_parts.get ⟨idx, ha⟩) ':' = true) ∧
      ((∀ k2 (hk2 : k2 < s.routes.length), k2 < i →
          route_matches (s.routes.get ⟨k2, hk2⟩) req.http_method req.path_parts = false) →
        k = i) ∧
      (∀ (qm : List (String × String)) (key : String),
        s.auth_handler (s.routes.get ⟨k, hk⟩) key = true →
        route_dispatch s req qm key =
          DispatchResult.handled (s.routes.get ⟨k, hk⟩).handler
            (merge_path_params qm ((s.routes.get ⟨k, hk⟩).path_parts.zip req.path_parts))
            req.body (s.routes.get ⟨k, hk⟩).async) := by
  obtain ⟨k, hk, hki, hpk, hfind, hmin⟩ :=
    find?_first_of_sat (fun r => route_matches r req.http_method req.path_parts)
      s.routes i hi h1
  have hpk2 := hpk
  simp only [route_matches, Bool.and_eq_true, decide_eq_true_eq] at hpk2
  refine ⟨k, hk, hki, hpk, hfind, hpk2.1.2, hpk2.1.1, ?_, ?_, ?_⟩
  · intro idx ha hb
    have hseg := all_zip_get (fun pg => seg_matches pg.1 pg.2)
      (s.routes.get ⟨k, hk⟩).path_parts req.path_parts idx ha hb hpk2.2
    simpa [seg_matches, Bool.or_eq_true, decide_eq_true_eq] using hseg
  · intro hnone
    rcases Nat.lt_or_ge k i with hlt | hge
    · have hfalse := hnone k hk hlt
      rw [hpk] at hfalse
      exact absurd hfalse (by decide)
    · exact Nat.le_antisymm hki hge
  · intro qm key hauth
    have hauth2 : s.auth_handler s.routes[k] key = true := hauth
    unfold route_dispatch find_matching_route
    rw [hfind]
    simp [hauth2]

theorem registration_order_wins_witness :
    find_matching_route server_two_routes.routes req_items_special.http_method
      req_items_special.path_parts = some route_items_param := by
  obtain ⟨k, hk, hki, hmatch, hfind, -, -, -, -, -⟩ :=
    registration_order_wins server_two_routes req_items_special 0 1
      (by decide) (by decide) (by decide) rfl rfl
  have hk0 : k = 0 := Nat.le_zero.mp hki
  subst hk0
  simpa [server_two_routes] using hfind

theorem iterate_handler_shift {σ : Type} (h : σ → http_res → http_res × σ) (n : Nat)
    (st : http_res × σ) :
    iterate_handler h n (step_res h st) = iterate_handler h (n + 1) st := rfl

theorem run_proceeds_succ_cons {σ : Type} (h : σ → http_res → http_res × σ) (n : Nat)
    (st : http_res × σ) (h0 : (step_res h st).1.final = false) :
    run_proceeds h (n + 1) st =
      (WriteEvt.mk (step_res h st).1.body (step_res h st).1.final ::
        (run_proceeds h n (step_res h st)).1,
       (run_proceeds h n (step_res h st)).2) := by
  simp only [run_proceeds, response_proceed_model, h0, Bool.false_eq_true, if_false]

theorem run_proceeds_succ_final {σ : Type} (h : σ → http_res → http_res × σ) (n : Nat)
    (st : http_res × σ) (h1 : (step_res h st).1.final = true) :
    run_proceeds h (n + 1) st =
      ([WriteEvt.mk (step_res h st).1.body (step_res h st).1.final], none) := by
  simp only [run_proceeds, response_proceed_model, h1, if_true]

theorem run_proceeds_no_final {σ : Type} (h : σ → http_res → http_res × σ) (n : Nat)
    (st : http_res × σ)
    (hnf : ∀ j, j < n → (iterate_handler h (j + 1) st).1.final = false) :
    run_proceeds h n st =
      ((List.range n).map (fun j =>
        WriteEvt.mk (iterate_handler h (j + 1) st).1.body
          (iterate_handler h (j + 1) st).1.final),
       some (iterate_handler h n st)) := by
  induction n generalizing st with
  | zero => rfl
  | succ n ih =>
    have h0 : (step_res h st).1.final = false := hnf 0 (Nat.succ_pos n)
    rw [run_proceeds_succ_cons h n st h0,
      ih (step_res h st) (fun j hj => hnf (j + 1) (Nat.succ_lt_succ hj)),
      List.range_succ_eq_map, List.map_cons, List.map_map]
    rfl

theorem run_proceeds_final_at {σ : Type} (h : σ → http_res → http_res × σ) (m : Nat)
    (st : http_res × σ)
    (hnf : ∀ j, j < m → (iterate_handler h (j + 1) st).1.final = false)
    (hfin : (iterate_handler h (m + 1) st).1.final = true) :
    run_proceeds h (m + 1) st =
      ((List.range (m + 1)).map (fun j =>
        WriteEvt.mk (iterate_handler h (j + 1) st).1.body
          (iterate_handler h (j + 1) st).1.final), none) := by
  induction m generalizing st with
  | zero =>
    rw [run_proceeds_succ_final h 0 st hfin]
    rfl
  | succ m ih =>
    have h0 : (step_res h st).1.final = false := hnf 0 (Nat.succ_pos m)
    rw [run_proceeds_succ_cons h (m + 1) st h0,
      ih (step_res h st) (fun j hj => hnf (j + 1) (Nat.succ_lt_succ hj)) hfin]
    conv_rhs => rw [List.range_succ_eq_map, List.map_cons, List.map_map]
    rfl

/-- C7 counterexample: a streaming exchange whose resumption handler is
driven for a single turn and finishes on that turn issues two transport
writes, not one — `stream_response` already sent an initial empty
in-progress chunk before the first write-readiness turn. -/
theorem streaming_write_count_counterexample :
    (stream_exchange one_shot_handler res_start () 1).1 =
      [WriteEvt.mk "" false, WriteEvt.mk "x" true] ∧
    (stream_exchange one_shot_handler res_start () 1).1.length ≠ 1 := by
  constructor
  · rfl
  · decide

/-- C7 amended: a streaming exchange driven across n write-readiness turns
whose handler sets final only on the n-th turn issues n + 1 transport
writes — the initial empty chunk of `stream_response` plus one per turn —
of which the first n are in-progress and only the last is final, and on
that final write the stream state (request, response, generator) is
released. -/
theorem streaming_turns_writes (σ : Type) (h : σ → http_res → http_res × σ)
    (res0 : http_res) (s0 : σ) (n : Nat) (hn : 1 ≤ n)
    (hmid : ∀ j, j + 1 < n → (iterate_handler h (j + 1) (res0, s0)).1.final = false)
    (hfin : (iterate_handler h n (res0, s0)).1.final = true) :
    (stream_exchange h res0 s0 n).1.length = n + 1 ∧
    (∀ w ∈ (stream_exchange h res0 s0 n).1.take n, w.final = false) ∧
    (stream_exchange h res0 s0 n).1.getLast? =
      some (WriteEvt.mk (iterate_handler h n (res0, s0)).1.body true) ∧
    (stream_exchange h res0 s0 n).2 = none := by
  obtain ⟨m, rfl⟩ : ∃ m, n = m + 1 := ⟨n - 1, (Nat.succ_pred_eq_of_pos hn).symm⟩
  have hnf : ∀ j, j < m → (iterate_handler h (j + 1) (res0, s0)).1.final = false :=
    fun j hj => hmid j (Nat.succ_lt_succ hj)
  have hrun := run_proceeds_final_at h m (res0, s0) hnf hfin
  have hex : stream_exchange h res0 s0 (m + 1) =
      (WriteEvt.mk "" false ::
        (List.range (m + 1)).map (fun j =>
          WriteEvt.mk (iterate_handler h (j + 1) (res0, s0)).1.body
            (iterate_handler h (j + 1) (res0, s0)).1.final), none) := by
    simp only [stream_exchange, stream_response_model]
    rw [hrun]
  rw [hex]
  have hsplit : (WriteEvt.mk "" false ::
      (List.range (m + 1)).map (fun j =>
        WriteEvt.mk (iterate_handler h (j + 1) (res0, s0)).1.body
          (iterate_handler h (j + 1) (res0, s0)).1.final)) =
      (WriteEvt.mk "" false ::
        (List.range m).map (fun j =>
          WriteEvt.mk (iterate_handler h (j + 1) (res0, s0)).1.body
            (iterate_handler h (j + 1) (res0, s0)).1.final)) ++
        [WriteEvt.mk (iterate_handler h (m + 1) (res0, s0)).1.body
          (iterate_handler h (m + 1) (res0, s0)).1.final] := by
    rw [List.range_succ, List.map_append, List.map_cons, List.map_nil]
    rfl
  refine ⟨by simp, ?_, ?_, rfl⟩
  · intro w hw
    simp only [List.take_succ_cons, List.mem_cons] at hw
    rcases hw with hw | hw
    · rw [hw]
    · have hw2 : w ∈ ((List.range (m + 1)).map (fun j =>
          WriteEvt.mk (iterate_handler h (j + 1) (res0, s0)).1.body
            (iterate_handler h (j + 1) (res0, s0)).1.final)).take m := hw
      rw [← List.map_take, List.take_range] at hw2
      simp only [List.mem_map, List.mem_range] at hw2
      obtain ⟨j, hj, hwj⟩ := hw2
      rw [← hwj]
      have hjm : j < m := Nat.lt_of_lt_of_le hj (by omega)
      exact hmid j (Nat.succ_lt_succ hjm)
  · show (WriteEvt.mk "" false ::
        (List.range (m + 1)).map (fun j =>
          WriteEvt.mk (iterate_handler h (j + 1) (res0, s0)).1.body
            (iterate_handler h (j + 1) (res0, s0)).1.final)).getLast? =
      some (WriteEvt.mk (iterate_handler h (m + 1) (res0, s0)).1.body true)
    rw [hsplit, List.getLast?_concat, hfin]

theorem streaming_turns_writes_witness :
    (stream_exchange chunking_handler res_start 0 2).1.length = 2 + 1 :=
  (streaming_turns_writes Nat chunking_handler res_start 0 2 (by decide)
    (fun j hj => by
      have hj0 : j = 0 := by omega
      subst hj0
      rfl)
    rfl).1

/-- C8: when the transport reports an abrupt connection close after k
write-readiness turns none of which set final, the stop transition releases
the request, response and stream state (surviving state none), the
resumption handler is not invoked again (exactly k invocations in total),
and no further bytes are written (the writes are exactly the initial chunk
and the k in-progress turn chunks); no assumption is made about the handler
ever setting final. -/
theorem abrupt_close_releases (σ : Type) (h : σ → http_res → http_res × σ)
    (res0 : http_res) (s0 : σ) (k : Nat)
    (hnf : ∀ j, j < k → (iterate_handler h (j + 1) (res0, s0)).1.final = false) :
    (stream_exchange_stopped h res0 s0 k).1.length = k + 1 ∧
    (∀ w ∈ (stream_exchange_stopped h res0 s0 k).1, w.final = false) ∧
    (stream_exchange_stopped h res0 s0 k).2.1 = none ∧
    (stream_exchange_stopped h res0 s0 k).2.2 = k := by
  have hrun := run_proceeds_no_final h k (res0, s0) hnf
  have hex : stream_exchange_stopped h res0 s0 k =
      (WriteEvt.mk "" false ::
        (List.range k).map (fun j =>
          WriteEvt.mk (iterate_handler h (j + 1) (res0, s0)).1.body
            (iterate_handler h (j + 1) (res0, s0)).1.final) ++ [],
       none,
       ((List.range k).map (fun j =>
          WriteEvt.mk (iterate_handler h (j + 1) (res0, s0)).1.body
            (iterate_handler h (j + 1) (res0, s0)).1.final)).length + 0) := by
    simp only [stream_exchange_stopped, stream_response_model, response_stop_model]
    rw [hrun]
  rw [hex]
  refine ⟨by simp, ?_, rfl, by simp⟩
  intro w hw
  simp only [List.append_nil, List.mem_cons, List.mem_map, List.mem_range] at hw
  rcases hw with hw | ⟨j, hj, hwj⟩
  · rw [hw]
  · rw [← hwj]
    exact hnf j hj

theorem abrupt_close_releases_witness :
    (stream_exchange_stopped endless_handler res_start () 2).1.length = 2 + 1 ∧
    (stream_exchange_stopped endless_handler res_start () 2).2.1 = none ∧
    (stream_exchange_stopped endless_handler res_start () 2).2.2 = 2 := by
  have h := abrupt_close_releases Unit endless_handler res_start () 2
    (fun j hj => by
      match j, hj with
      | 0, _ => rfl
      | 1, _ => rfl)
  exact ⟨h.1, h.2.2.1, h.2.2.2⟩

theorem mem_on_message (reg : String → Bool) (l : List Msg) (e : RelayEvent) :
    e ∈ on_message reg l ↔
      ∃ m ∈ l, e = RelayEvent.destroyed m.id ∨
        (reg m.type = true ∧ e = RelayEvent.invoked m.id m.type m.data) := by
  induction l with
  | nil => simp [on_message]
  | cons m rest ih =>
    simp only [on_message, List.mem_append, List.mem_cons, ih]
    constructor
    · rintro (hif | he | ⟨m2, hm2, hc⟩)
      · by_cases hr : reg m.type = true
        · rw [if_pos hr] at hif
          simp only [List.mem_singleton] at hif
          exact ⟨m, Or.inl rfl, Or.inr ⟨hr, hif⟩⟩
        · rw [if_neg hr] at hif
          simp at hif
      · exact ⟨m, Or.inl rfl, Or.inl he⟩
      · exact ⟨m2, Or.inr hm2, hc⟩
    · rintro ⟨m2, hm2, hc⟩
      rcases hm2 with he2 | hm2r
      · subst he2
        rcases hc with hd | ⟨hr, hi⟩
        · exact Or.inr (Or.inl hd)
        · refine Or.inl ?_
          rw [if_pos hr]
          simp [hi]
      · exact Or.inr (Or.inr ⟨m2, hm2r, hc⟩)

theorem count_destroyed_zero (reg : String → Bool) (l : List Msg) (i : Nat)
    (hni : i ∉ l.map Msg.id) :
    (on_message reg l).count (RelayEvent.destroyed i) = 0 := by
  rw [List.count_eq_zero]
  intro hmem
  rw [mem_on_message] at hmem
  obtain ⟨m, hm, hcase⟩ := hmem
  rcases hcase with hd | ⟨-, hd⟩
  · have : i = m.id := by injection hd
    exact hni (this ▸ List.mem_map_of_mem Msg.id hm)
  · exact RelayEvent.noConfusion hd

theorem count_invoked_zero (reg : String → Bool) (l : List Msg) (i : Nat) (t : String) (d : Nat)
    (hni : i ∉ l.map Msg.id) :
    (on_message reg l).count (RelayEvent.invoked i t d) = 0 := by
  rw [List.count_eq_zero]
  intro hmem
  rw [mem_on_message] at hmem
  obtain ⟨m, hm, hcase⟩ := hmem
  rcases hcase with hd | ⟨-, hd⟩
  · exact RelayEvent.noConfusion hd
  · have : i = m.id := by injection hd
    exact hni (this ▸ List.mem_map_of_mem Msg.id hm)

theorem count_destroyed_one (reg : String → Bool) (l : List Msg) (m : Msg)
    (hmem : m ∈ l) (hnd : (l.map Msg.id).Nodup) :
    (on_message reg l).count (RelayEvent.destroyed m.id) = 1 := by
  induction l with
  | nil => exact absurd hmem (by simp)
  | cons m2 rest ih =>
    have hnd2 : (rest.map Msg.id).Nodup := (List.nodup_cons.mp (by simpa using hnd)).2
    have hhead : m2.id ∉ rest.map Msg.id := (List.nodup_cons.mp (by simpa using hnd)).1
    rcases List.mem_cons.mp hmem with he | hm
    · subst he
      simp only [on_message, List.count_append, List.count_cons_self]
      rw [count_destroyed_zero reg rest m.id hhead]
      by_cases hr : reg m.type = true <;> simp [hr, List.count_cons]
    · have hne : m.id ≠ m2.id := by
        intro he
        exact hhead (he ▸ List.mem_map_of_mem Msg.id hm)
      have hned : RelayEvent.destroyed m.id ≠ RelayEvent.destroyed m2.id := by
        intro he
        exact hne (by injection he)
      simp only [on_message, List.count_append]
      rw [List.count_cons_of_ne hned, ih hm hnd2]
      by_cases hr : reg m2.type = true <;> simp [hr, List.count_cons]

theorem count_invoked_reg_one (reg : String → Bool) (l : List Msg) (m : Msg)
    (hmem : m ∈ l) (hnd : (l.map Msg.id).Nodup) (hr : reg m.type = true) :
    (on_message reg l).count (RelayEvent.invoked m.id m.type m.data) = 1 := by
  induction l with
  | nil => exact absurd hmem (by simp)
  | cons m2 rest ih =>
    have hnd2 : (rest.map Msg.id).Nodup := (List.nodup_cons.mp (by simpa using hnd)).2
    have hhead : m2.id ∉ rest.map Msg.id := (List.nodup_cons.mp (by simpa using hnd)).1
    rcases List.mem_cons.mp hmem with he | hm
    · subst he
      simp only [on_message, hr, if_true, List.count_append]
      have hnei : RelayEvent.invoked m.id m.type m.data ≠ RelayEvent.destroyed m.id :=
        fun he => RelayEvent.noConfusion he
      rw [List.count_cons_of_ne hnei, count_invoked_zero reg rest m.id m.type m.data hhead]
      simp [List.count_cons]
    · have hne : m.id ≠ m2.id := by
        intro he
        exact hhead (he ▸ List.mem_map_of_mem Msg.id hm)
      have hned : RelayEvent.invoked m.id m.type m.data ≠ RelayEvent.destroyed m2.id :=
        fun he => RelayEvent.noConfusion he
      have hnei : RelayEvent.invoked m.id m.type m.data ≠
          RelayEvent.invoked m2.id m2.type m2.data := by
        intro he
        exact hne (by injection he)
      simp only [on_message, List.count_append]
      rw [List.count_cons_of_ne hned, ih hm hnd2]
      by_cases hr2 : reg m2.type = true <;> simp [hr2, List.count_cons_of_ne hnei]

theorem on_message_split (reg : String → Bool) (l : List Msg) (m : Msg) (hmem : m ∈ l) :
    ∃ pre post, on_message reg l =
      pre ++ (if reg m.type then [RelayEvent.invoked m.id m.type m.data] else []) ++
        RelayEvent.destroyed m.id :: post := by
  induction l with
  | nil => exact absurd hmem (by simp)
  | cons m2 rest ih =>
    rcases List.mem_cons.mp hmem with he | hm
    · subst he
      exact ⟨[], on_message reg rest, by simp [on_message]⟩
    · obtain ⟨pre, post, heq⟩ := ih hm
      refine ⟨(if reg m2.type then [RelayEvent.invoked m2.id m2.type m2.data] else []) ++
        RelayEvent.destroyed m2.id :: pre, post, ?_⟩
      simp [on_message, heq]

/-- C9: during a drain every inbox message is consumed and destroyed exactly
once — its destruction event occurs exactly once, a registered callback for
its type is invoked exactly once, immediately before the message is
unlinked and freed — and the destructor drains every pending message before
releasing the resources of the relay. -/
theorem relay_drained_exactly_once (reg : String → Bool) (inbox : List Msg) (m : Msg)
    (hmem : m ∈ inbox) (hnd : (inbox.map Msg.id).Nodup) :
    (on_message reg inbox).count (RelayEvent.destroyed m.id) = 1 ∧
    (reg m.type = true →
      (on_message reg inbox).count (RelayEvent.invoked m.id m.type m.data) = 1) ∧
    (∃ pre post, on_message reg inbox =
      pre ++ (if reg m.type then [RelayEvent.invoked m.id m.type m.data] else []) ++
        RelayEvent.destroyed m.id :: post) ∧
    (∃ pre2 post2, http_server_destructor reg inbox =
      pre2 ++ TeardownEvent.drained (RelayEvent.destroyed m.id) :: post2 ++
        [TeardownEvent.relayReleased]) := by
  refine ⟨count_destroyed_one reg inbox m hmem hnd,
    fun hr => count_invoked_reg_one reg inbox m hmem hnd hr,
    on_message_split reg inbox m hmem, ?_⟩
  obtain ⟨pre, post, heq⟩ := on_message_split reg inbox m hmem
  refine ⟨(pre ++ (if reg m.type then [RelayEvent.invoked m.id m.type m.data] else [])).map
      TeardownEvent.drained,
    post.map TeardownEvent.drained, ?_⟩
  unfold http_server_destructor
  rw [heq]
  simp

theorem relay_drained_exactly_once_witness :
    (on_message sample_registered sample_inbox).count (RelayEvent.destroyed msg_reg.id) = 1 :=
  (relay_drained_exactly_once sample_registered sample_inbox msg_reg
    (by decide) (by decide)).1

/-- C10: a drained message whose type has no registered callback is still
unlinked and destroyed exactly once, no callback is ever invoked with the
payload of that message, and draining an inbox holding only that message
produces exactly its destruction — the send is silently discarded, not
queued and not an error. -/
theorem relay_unregistered_type_discarded (reg : String → Bool) (inbox : List Msg) (m : Msg)
    (hmem : m ∈ inbox) (hnd : (inbox.map Msg.id).Nodup) (hur : reg m.type = false) :
    (on_message reg inbox).count (RelayEvent.destroyed m.id) = 1 ∧
    (∀ t d, RelayEvent.invoked m.id t d ∉ on_message reg inbox) ∧
    on_message reg [m] = [RelayEvent.destroyed m.id] := by
  refine ⟨count_destroyed_one reg inbox m hmem hnd, ?_, by simp [on_message, hur]⟩
  intro t d hin
  rw [mem_on_message] at hin
  obtain ⟨m2, hm2, hc⟩ := hin
  rcases hc with hd | ⟨hr2, hi⟩
  · exact RelayEvent.noConfusion hd
  · have hid : m.id = m2.id := by injection hi
    have hmm2 : m = m2 := List.inj_on_of_nodup_map hnd hmem hm2 hid
    rw [hmm2] at hur
    rw [hur] at hr2
    exact Bool.noConfusion hr2

theorem relay_unregistered_type_discarded_witness :
    on_message sample_registered [msg_unreg] = [RelayEvent.destroyed msg_unreg.id] :=
  (relay_unregistered_type_discarded sample_registered sample_inbox msg_unreg
    (by decide) (by decide) (by decide)).2.2
